import Mathlib

/-!
Verification of the goquasar routing core (Quasar publish/subscribe).

The Go sources `node.go` (Node, route, sendUpdates, processUpdate,
dispatchInput, Subscribe, Unsubscribe, Publish, randomPeer) and
`update.go` (validUpdate) are embedded below as pure Lean functions.
State touched by an operation is passed explicitly; the wall clock,
the random source and the duplicate-history verdict are explicit
inputs; Go `uint32` arithmetic is modelled as Nat with explicit
`% 2^32` where overflow can occur.

The Bloom-filter primitives (`filter.go`), the event constructor and
the hash function are repository code not present under `src/`; those
definitions are modelled from the specification and are marked
`Modelled from the spec:` in their doc comments.  The hash functions
themselves are opaque and appear as parameters (`h160`, `h160p`,
`posD`).
-/

namespace Quasar

/-- Opaque public-key value (peer identity), equality-comparable. -/
abbrev Pubkey := Nat

/-- Opaque 20-byte topic digest, equality-comparable. -/
abbrev Hash160Digest := Nat

/-- Identity of an `io.Writer` delivery sink. -/
abbrev Sink := Nat

/-- A Bloom filter as its byte array (one Nat per byte). -/
abbrev Filter := List Nat

/-- Configuration options consumed by the routing core.
`filtersM` is the filter bit width (Go `uint64`), `filtersDepth` the
number of attenuation levels D (Go `uint32`), `defaultEventTTL` the
initial TTL at publish time (Go `uint32`). -/
structure Config where
  filtersM : Nat
  filtersK : Nat
  filtersDepth : Nat
  defaultEventTTL : Nat
deriving Repr, DecidableEq

/-- 2^32, the modulus of Go `uint32` arithmetic. -/
def U32 : Nat := 2 ^ 32

/-- Go `uint32` decrement `x - 1` with wraparound: used by
`c.filtersDepth - 1` in `validUpdate` and `sendUpdates`, and by
`e.ttl -= 1` in `route`. -/
def dec32 (x : Nat) : Nat := (x + (U32 - 1)) % U32

/-- Modelled from the spec: the event record (§3).  `ttl` is an
unsigned 32-bit integer (a Nat kept below `2^32`); `publishers` is the
ordered list of peer-ids that previously forwarded on behalf of a
local subscription.  The `event` struct is not under `src/`. -/
structure Event where
  topicDigest : Hash160Digest
  message : List Nat
  ttl : Nat
  publishers : List Pubkey
deriving Repr, DecidableEq

/-- Modelled from the spec: `newEvent(topic, message, ttl)` builds the
event published for `topic`: digest of the topic bytes, the payload,
the configured TTL and an empty publisher list (§3, scenario S4). -/
def newEvent (h160 : List Nat → Hash160Digest) (topic message : List Nat)
    (ttl : Nat) : Event :=
  { topicDigest := h160 topic, message := message, ttl := ttl % U32,
    publishers := [] }

/-- The `update` wire record from `update.go`: sender (a nullable
pointer in Go, hence `Option`), level index (`uint32`) and filter
bytes. -/
structure Update where
  peer : Option Pubkey
  index : Nat
  filter : List Nat
deriving Repr, DecidableEq

/-- `validUpdate` from `update.go`: the update pointer and the peer
pointer are non-nil, `u.index < c.filtersDepth - 1` (Go `uint32`
subtraction) and `len(u.filter) == c.filtersM / 8`. -/
def validUpdate (u : Option Update) (c : Config) : Bool :=
  match u with
  | none => false
  | some u =>
      u.peer.isSome && decide (u.index < dec32 c.filtersDepth) &&
        decide (u.filter.length = c.filtersM / 8)

/-! ## Bloom filter primitives (modelled from the spec, §4.1)

`filter.go` is not under `src/`.  The spec describes an M-bit array
(M a multiple of 8); inserting a digest sets K bit positions derived
deterministically from the digest, containment tests that all K are
set, and merge is bitwise OR.  The position derivation (double
hashing of a cryptographic hash) is opaque and appears as the
parameter `posD : Hash160Digest → List Nat`. -/

/-- Modelled from the spec: read bit `p` of the filter byte array. -/
def getBit (f : Filter) (p : Nat) : Bool :=
  Nat.testBit (f.getD (p / 8) 0) (p % 8)

/-- Modelled from the spec: set bit `p` of the filter byte array. -/
def setBit (f : Filter) (p : Nat) : Filter :=
  f.set (p / 8) ((f.getD (p / 8) 0) ||| (1 <<< (p % 8)))

/-- Modelled from the spec: insert a digest by setting each of its
derived bit positions. -/
def insertDigest (posD : Hash160Digest → List Nat) (f : Filter)
    (d : Hash160Digest) : Filter :=
  (posD d).foldl setBit f

/-- Modelled from the spec: `filterContainsDigest` tests that every
derived bit position of the digest is set. -/
def filterContainsDigest (posD : Hash160Digest → List Nat) (f : Filter)
    (d : Hash160Digest) : Bool :=
  (posD d).all (getBit f)

/-- Modelled from the spec: `filterContains` over raw peer-id bytes
hashes them to a 20-byte digest (`h160p`) and tests containment. -/
def filterContains (posD : Hash160Digest → List Nat)
    (h160p : Pubkey → Hash160Digest) (f : Filter) (pk : Pubkey) : Bool :=
  filterContainsDigest posD f (h160p pk)

/-- Modelled from the spec: a zeroed filter of `M/8` bytes. -/
def newFilter (cfg : Config) : Filter :=
  List.replicate (cfg.filtersM / 8) 0

/-- Modelled from the spec: `newFilters` builds D zeroed filters. -/
def newFilters (cfg : Config) : List Filter :=
  List.replicate cfg.filtersDepth (newFilter cfg)

/-- Modelled from the spec: `newFilterFromDigests` inserts every given
digest into a fresh filter. -/
def newFilterFromDigests (posD : Hash160Digest → List Nat) (cfg : Config)
    (ds : List Hash160Digest) : Filter :=
  ds.foldl (insertDigest posD) (newFilter cfg)

/-! ## Association lists for Go maps -/

/-- Lookup in a Go map modelled as an association list. -/
def alookup (k : Nat) : List (Nat × α) → Option α
  | [] => none
  | (k', v) :: rest => if k = k' then some v else alookup k rest

/-- Go map write `m[k] = v`: replace the entry for `k` or append it. -/
def insertEntry (k : Nat) (v : α) : List (Nat × α) → List (Nat × α)
  | [] => [(k, v)]
  | (k', v') :: rest =>
      if k = k' then (k, v) :: rest else (k', v') :: insertEntry k v rest

/-- Go map `delete(m, k)`: drop every entry for `k`. -/
def eraseEntry (k : Nat) : List (Nat × α) → List (Nat × α)
  | [] => []
  | (k', v) :: rest =>
      if k = k' then eraseEntry k rest else (k', v) :: eraseEntry k rest

/-! ## Peer filter table and update ingestion -/

/-- Per-neighbor attenuated filter vector with per-level timestamps
(the `peerData` struct). -/
structure PeerData where
  filters : List Filter
  timestamps : List Nat
deriving Repr, DecidableEq

/-- Observability taps touched by update processing
(`UpdatesReceived`, `UpdatesFail`, `UpdatesSuccess`). -/
inductive UTap where
  | received
  | fail
  | success
deriving Repr, DecidableEq

/-- `processUpdate` from `node.go`: drop (with the fail tap) when the
sender is not currently connected; otherwise create the peer entry if
absent (D zero filters, D zero timestamps), overwrite the filter at
`index` and stamp the level with the current wall clock `now`.  The
clock and the overlay connectivity predicate are explicit inputs. -/
def processUpdate (cfg : Config) (isConn : Pubkey → Bool) (now : Nat)
    (peers : List (Pubkey × PeerData)) (pk : Pubkey) (index : Nat)
    (filter : List Nat) : List (Pubkey × PeerData) × List UTap :=
  if isConn pk = false then (peers, [UTap.received, UTap.fail])
  else
    let data := (alookup pk peers).getD
      { filters := newFilters cfg,
        timestamps := List.replicate cfg.filtersDepth 0 }
    let data' : PeerData :=
      { filters := data.filters.set index filter,
        timestamps := data.timestamps.set index now }
    (insertEntry pk data' peers, [UTap.received, UTap.success])

/-- The update case of `dispatchInput` from `node.go`: an inbound
update is handed to `processUpdate` only when `validUpdate` holds;
otherwise it is dropped on the floor with no state change and no tap.
The `match` arms below the validity test are unreachable because
`validUpdate` requires both pointers to be non-nil. -/
def dispatchUpdate (cfg : Config) (isConn : Pubkey → Bool) (now : Nat)
    (peers : List (Pubkey × PeerData)) (u : Option Update) :
    List (Pubkey × PeerData) × List UTap :=
  if validUpdate u cfg then
    match u with
    | some v =>
        match v.peer with
        | some pk => processUpdate cfg isConn now peers pk v.index v.filter
        | none => (peers, [])
    | none => (peers, [])
  else (peers, [])

/-- The filter stored for peer `pk` at level `i`, if the peer has an
entry. -/
def peerFilterAt (peers : List (Pubkey × PeerData)) (pk : Pubkey)
    (i : Nat) : Option Filter :=
  (alookup pk peers).map (fun pd => pd.filters.getD i [])

/-! ## Event routing -/

/-- Observability taps touched by event routing. -/
inductive ETap where
  | dropDuplicate
  | deliver
  | routeDirect (p : Pubkey)
  | dropTTL
  | routeWell (p : Pubkey)
  | routeRandom (p : Pubkey)
deriving Repr, DecidableEq

/-- Everything `route` does to an event: the event as mutated (TTL
decrement, publisher append), the sinks written, the peers the event
was sent to, and the taps emitted, in program order. -/
structure RouteResult where
  evt : Event
  delivered : List Sink
  sends : List Pubkey
  taps : List ETap
deriving Repr, DecidableEq

/-- `randomPeer` from `node.go`: `nil` when no neighbor is connected,
otherwise the neighbor at the index drawn by `rand.Intn(len(peers))`.
The random source is the explicit oracle `rnd`; `rand.Intn n` is a
uniform draw from `[0, n)`, so `rnd` is applied to the list length
and is meaningful only when `rnd n < n`. -/
def randomPeer (rnd : Nat → Nat) (connected : List Pubkey) : Option Pubkey :=
  if connected.length = 0 then none
  else connected[rnd connected.length]?

/-- One level of the well-informed scan in `route`: the first peer in
table order whose level-`i` filter contains the topic digest and
contains none of the peer-ids already in `e.publishers`. -/
def wellFindAtLevel (posD : Hash160Digest → List Nat)
    (h160p : Pubkey → Hash160Digest) (e : Event) (i : Nat)
    (peers : List (Pubkey × PeerData)) : Option Pubkey :=
  peers.findSome? (fun pd =>
    let f := pd.2.filters.getD i []
    if filterContainsDigest posD f e.topicDigest then
      if e.publishers.any (fun pub => filterContains posD h160p f pub) then
        none
      else some pd.1
    else none)

/-- The well-informed forwarding scan of `route`: levels `0..D-1` in
order, each level scanning the peer table. -/
def wellInformed (cfg : Config) (posD : Hash160Digest → List Nat)
    (h160p : Pubkey → Hash160Digest) (peers : List (Pubkey × PeerData))
    (e : Event) : Option Pubkey :=
  (List.range cfg.filtersDepth).findSome?
    (fun i => wellFindAtLevel posD h160p e i peers)

/-- Steps 3–5 of `route` applied to the event after the TTL
decrement: TTL-exhaustion drop, the well-informed scan, then the
random fallback (a send happens only when `randomPeer` is non-nil;
the empty-neighbor case drops with no tap). -/
def routeTail (cfg : Config) (posD : Hash160Digest → List Nat)
    (h160p : Pubkey → Hash160Digest) (peers : List (Pubkey × PeerData))
    (connected : List Pubkey) (rnd : Nat → Nat) (e' : Event) : RouteResult :=
  if e'.ttl = 0 then
    { evt := e', delivered := [], sends := [], taps := [ETap.dropTTL] }
  else
    match wellInformed cfg posD h160p peers e' with
    | some pk =>
        { evt := e', delivered := [], sends := [pk],
          taps := [ETap.routeWell pk] }
    | none =>
        match randomPeer rnd connected with
        | some pk =>
            { evt := e', delivered := [], sends := [pk],
              taps := [ETap.routeRandom pk] }
        | none => { evt := e', delivered := [], sends := [], taps := [] }

/-- `route` from `node.go` (Algorithm 2 of the quasar paper).  The
duplicate-history verdict `dup` (the result of `history.Witness`, an
external probabilistic structure), the node id `self`, snapshots of
the subscription table, the peer filter table (in iteration order)
and the connected-neighbor list, and the random oracle `rnd` are
explicit inputs. -/
def route (cfg : Config) (posD : Hash160Digest → List Nat)
    (h160p : Pubkey → Hash160Digest) (dup : Bool) (self : Pubkey)
    (subscribers : List (Nat × List Sink))
    (peers : List (Pubkey × PeerData)) (connected : List Pubkey)
    (rnd : Nat → Nat) (e : Event) : RouteResult :=
  if dup then
    { evt := e, delivered := [], sends := [], taps := [ETap.dropDuplicate] }
  else
    match alookup e.topicDigest subscribers with
    | some receivers =>
        { evt := { e with publishers := e.publishers ++ [self] },
          delivered := receivers,
          sends := connected,
          taps := ETap.deliver :: connected.map ETap.routeDirect }
    | none =>
        routeTail cfg posD h160p peers connected rnd
          { e with ttl := dec32 e.ttl }

/-- `Publish` from `node.go`: build the event with the configured
default TTL (no validation of any kind) and route it.  Returns the
created event together with what routing it did. -/
def Publish (cfg : Config) (posD : Hash160Digest → List Nat)
    (h160 : List Nat → Hash160Digest) (h160p : Pubkey → Hash160Digest)
    (dup : Bool) (self : Pubkey) (subscribers : List (Nat × List Sink))
    (peers : List (Pubkey × PeerData)) (connected : List Pubkey)
    (rnd : Nat → Nat) (topic message : List Nat) : Event × RouteResult :=
  let e := newEvent h160 topic message cfg.defaultEventTTL
  (e, route cfg posD h160p dup self subscribers peers connected rnd e)

/-! ## Filter propagation (`sendUpdates`, Algorithm 1) -/

/-- Map with the element index threaded through, starting at `k`. -/
def imap (g : Nat → α → α) : Nat → List α → List α
  | _, [] => []
  | k, x :: xs => g k x :: imap g (k + 1) xs

/-- The inner merge of `sendUpdates`: for `j < size`,
`a[j] = a[j] | b[j]` (bytes of `b` read with a zero default; the Go
code indexes directly and all reachable filters have exactly `size`
bytes). -/
def byteOR (size : Nat) (a b : Filter) : Filter :=
  imap (fun j x => if j < size then x ||| b.getD j 0 else x) 0 a

/-- The per-peer loop body of `sendUpdates`: for `i` from 1 while
`i < D`, OR the peer's level `i-1` filter into local level `i`
(level 0 is untouched). -/
def mergePeer (cfg : Config) (fs : List Filter) (pd : PeerData) :
    List Filter :=
  imap (fun i f =>
    if 1 ≤ i then byteOR (cfg.filtersM / 8) f (pd.filters.getD (i - 1) [])
    else f) 0 fs

/-- The filter-construction half of `sendUpdates`: level 0 is built
from the subscribed topic digests plus the digest of the node's own
peer-id, then every peer's level `i-1` is merged into level `i`. -/
def buildFilters (posD : Hash160Digest → List Nat)
    (h160p : Pubkey → Hash160Digest) (cfg : Config) (own : Pubkey)
    (subs : List Hash160Digest) (peers : List (Pubkey × PeerData)) :
    List Filter :=
  let digests := subs ++ [h160p own]
  let fs := (newFilters cfg).set 0 (newFilterFromDigests posD cfg digests)
  peers.foldl (fun fs pd => mergePeer cfg fs pd.2) fs

/-- `sendUpdates` from `node.go`: build the local attenuated vector,
then send levels `0 .. D-2` (bound `c.filtersDepth - 1` in Go
`uint32` arithmetic; the top level is never sent) to every currently
connected neighbor.  Returns the vector and the sends in program
order. -/
def sendUpdates (posD : Hash160Digest → List Nat)
    (h160p : Pubkey → Hash160Digest) (cfg : Config) (own : Pubkey)
    (subs : List Hash160Digest) (peers : List (Pubkey × PeerData))
    (connected : List Pubkey) :
    List Filter × List (Pubkey × Nat × Filter) :=
  let fs := buildFilters posD h160p cfg own subs peers
  (fs, connected.flatMap (fun id =>
    (List.range (dec32 cfg.filtersDepth)).map (fun i => (id, i, fs.getD i []))))

/-! ## Subscription table -/

/-- The two mappings guarded together by the node lock:
digest → sinks and digest → original topic bytes. -/
structure SubState where
  subscribers : List (Nat × List Sink)
  topics : List (Nat × List Nat)
deriving Repr, DecidableEq

/-- `Subscribe` from `node.go`: on a new digest, insert the sink list
`[receiver]` and record the topic bytes; on an existing digest,
append the receiver to the sinks (topics untouched). -/
def Subscribe (h160 : List Nat → Hash160Digest) (s : SubState)
    (topic : List Nat) (receiver : Sink) : SubState :=
  let digest := h160 topic
  match alookup digest s.subscribers with
  | none =>
      { subscribers := insertEntry digest [receiver] s.subscribers,
        topics := insertEntry digest topic s.topics }
  | some receivers =>
      { s with
        subscribers := insertEntry digest (receivers ++ [receiver])
          s.subscribers }

/-- Remove the first occurrence of a sink (the Go loop breaks after
the first match; when the sink is absent the list is unchanged, which
is extensionally the Go behavior of not writing the map). -/
def removeFirstSink (r : Sink) : List Sink → List Sink
  | [] => []
  | x :: xs => if x = r then xs else x :: removeFirstSink r xs

/-- `Unsubscribe` from `node.go`: with a concrete receiver, remove its
first occurrence; then, when the receiver was `nil` or the remaining
sink list is empty, delete the digest from both maps. -/
def Unsubscribe (h160 : List Nat → Hash160Digest) (s : SubState)
    (topic : List Nat) (receiver : Option Sink) : SubState :=
  let digest := h160 topic
  match alookup digest s.subscribers with
  | none => s
  | some receivers =>
      let subs1 := match receiver with
        | some r => insertEntry digest (removeFirstSink r receivers)
            s.subscribers
        | none => s.subscribers
      if receiver.isNone || ((alookup digest subs1).getD []).length = 0 then
        { subscribers := eraseEntry digest subs1,
          topics := eraseEntry digest s.topics }
      else { s with subscribers := subs1 }

/-! ## Specification-side characterizations -/

/-- The (level, peer) pairs of the well-informed scan in level-major
order: all peers at level 0, then all peers at level 1, and so on up
to level D−1. -/
def levelPeerPairs (cfg : Config) (peers : List (Pubkey × PeerData)) :
    List (Nat × Pubkey × PeerData) :=
  (List.range cfg.filtersDepth).flatMap
    (fun i => peers.map (fun pd => (i, pd.1, pd.2)))

/-- A (level, peer) pair qualifies for well-informed forwarding of
`e`: the peer's filter at that level contains the topic digest and
contains none of the peer-ids already in `e.publishers`. -/
def qualifies (posD : Hash160Digest → List Nat)
    (h160p : Pubkey → Hash160Digest) (e : Event)
    (x : Nat × Pubkey × PeerData) : Bool :=
  filterContainsDigest posD (x.2.2.filters.getD x.1 []) e.topicDigest &&
    !(e.publishers.any
      (fun pub => filterContains posD h160p (x.2.2.filters.getD x.1 []) pub))

/-- The subscription table and the topic table have identical key
sets. -/
def keysAligned (s : SubState) : Prop :=
  ∀ d, (alookup d s.subscribers).isSome = (alookup d s.topics).isSome

/-! ## Arithmetic and association-list lemmas -/

theorem dec32_zero : dec32 0 = U32 - 1 := by decide

theorem dec32_of_pos {x : Nat} (h1 : 0 < x) (h2 : x < U32) :
    dec32 x = x - 1 := by
  unfold dec32
  have hx : x + (U32 - 1) = (x - 1) + U32 := by
    have : 1 ≤ U32 := by decide
    omega
  rw [hx, Nat.add_mod_right, Nat.mod_eq_of_lt (by omega)]

theorem alookup_insertEntry_self (k : Nat) (v : α) (l : List (Nat × α)) :
    alookup k (insertEntry k v l) = some v := by
  induction l with
  | nil => simp [insertEntry, alookup]
  | cons hd tl ih =>
      obtain ⟨k', v'⟩ := hd
      by_cases h : k = k' <;> simp [insertEntry, alookup, h, ih]

theorem alookup_insertEntry_ne (k k' : Nat) (v : α) (l : List (Nat × α))
    (h : k ≠ k') : alookup k (insertEntry k' v l) = alookup k l := by
  induction l with
  | nil => simp [insertEntry, alookup, h]
  | cons hd tl ih =>
      obtain ⟨k'', v''⟩ := hd
      by_cases h2 : k' = k''
      · subst h2
        simp [insertEntry, alookup, h]
      · by_cases h3 : k = k'' <;> simp [insertEntry, alookup, h2, h3, ih]

theorem alookup_eraseEntry (k k' : Nat) (l : List (Nat × α)) :
    alookup k (eraseEntry k' l) = if k = k' then none else alookup k l := by
  induction l with
  | nil => simp [eraseEntry, alookup]
  | cons hd tl ih =>
      obtain ⟨k'', v''⟩ := hd
      by_cases h2 : k' = k'' <;> by_cases h3 : k = k''
      · have h4 : k = k' := by omega
        rw [eraseEntry, if_pos h2, ih, if_pos h4, if_pos h4]
      · have h4 : k ≠ k' := by omega
        rw [eraseEntry, if_pos h2, ih, if_neg h4, if_neg h4]
        simp [alookup, h3]
      · have h4 : k ≠ k' := by omega
        rw [eraseEntry, if_neg h2, alookup, if_pos h3, if_neg h4, alookup,
          if_pos h3]
      · rw [eraseEntry, if_neg h2, alookup, if_neg h3, ih]
        simp [alookup, h3]

theorem insertEntry_insertEntry_self (k : Nat) (v w : α) (l : List (Nat × α)) :
    insertEntry k v (insertEntry k w l) = insertEntry k v l := by
  induction l with
  | nil => simp [insertEntry]
  | cons hd tl ih =>
      obtain ⟨k', v'⟩ := hd
      by_cases h : k = k' <;> simp [insertEntry, h, ih]

theorem getD_set_ne (l : List α) (a i : Nat) (x d : α) (h : a ≠ i) :
    (l.set a x).getD i d = l.getD i d := by
  simp [List.getD, List.getElem?_set_ne h]

/-! ## Shape lemmas for `routeTail` -/

theorem routeTail_evt (cfg : Config) (posD : Hash160Digest → List Nat)
    (h160p : Pubkey → Hash160Digest) (peers : List (Pubkey × PeerData))
    (connected : List Pubkey) (rnd : Nat → Nat) (e' : Event) :
    (routeTail cfg posD h160p peers connected rnd e').evt = e' := by
  unfold routeTail
  split
  · rfl
  · split
    · rfl
    · split <;> rfl

theorem routeTail_no_dropTTL (cfg : Config) (posD : Hash160Digest → List Nat)
    (h160p : Pubkey → Hash160Digest) (peers : List (Pubkey × PeerData))
    (connected : List Pubkey) (rnd : Nat → Nat) (e' : Event)
    (h : e'.ttl ≠ 0) :
    ETap.dropTTL ∉ (routeTail cfg posD h160p peers connected rnd e').taps := by
  unfold routeTail
  rw [if_neg h]
  split
  · simp
  · split <;> simp

theorem routeTail_sends_ne_nil (cfg : Config)
    (posD : Hash160Digest → List Nat) (h160p : Pubkey → Hash160Digest)
    (peers : List (Pubkey × PeerData)) (connected : List Pubkey)
    (rnd : Nat → Nat) (e' : Event) (h : e'.ttl ≠ 0)
    (hc : connected ≠ []) (hr : rnd connected.length < connected.length) :
    (routeTail cfg posD h160p peers connected rnd e').sends ≠ [] := by
  unfold routeTail
  rw [if_neg h]
  split
  · simp
  · have hlen : connected.length ≠ 0 := by
      intro h0
      exact hc (List.eq_nil_of_length_eq_zero h0)
    unfold randomPeer
    rw [if_neg hlen, List.getElem?_eq_getElem hr]
    simp

/-! ## Claim C1: local-match delivery and direct flood -/

/-- Claim C1: for a non-duplicate event whose topic digest has a
subscription entry, `route` delivers the payload to every registered
sink, appends the node's own peer-id to `e.publishers`, sends the
event to every currently connected neighbor, and returns with the
TTL untouched. -/
theorem route_local_match (cfg : Config) (posD : Hash160Digest → List Nat)
    (h160p : Pubkey → Hash160Digest) (self : Pubkey)
    (subscribers : List (Nat × List Sink))
    (peers : List (Pubkey × PeerData)) (connected : List Pubkey)
    (rnd : Nat → Nat) (e : Event) (receivers : List Sink)
    (hsub : alookup e.topicDigest subscribers = some receivers) :
    route cfg posD h160p false self subscribers peers connected rnd e =
      { evt := { e with publishers := e.publishers ++ [self] },
        delivered := receivers,
        sends := connected,
        taps := ETap.deliver :: connected.map ETap.routeDirect } ∧
    (route cfg posD h160p false self subscribers peers connected rnd
      e).evt.ttl = e.ttl := by
  unfold route
  simp [hsub]

/-- Witness for C1 at a concrete node state. -/
theorem route_local_match_witness :
    route ⟨1024, 4, 3, 5⟩ (fun d => [d % 8]) (fun pk => pk + 100) false 42
        [(5, [7, 8])] [] [9, 10] (fun _ => 0)
        { topicDigest := 5, message := [1], ttl := 5, publishers := [] } =
      { evt := { topicDigest := 5, message := [1], ttl := 5, publishers := [42] },
        delivered := [7, 8], sends := [9, 10],
        taps := [ETap.deliver, ETap.routeDirect 9, ETap.routeDirect 10] } :=
  (route_local_match ⟨1024, 4, 3, 5⟩ (fun d => [d % 8]) (fun pk => pk + 100)
    42 [(5, [7, 8])] [] [9, 10] (fun _ => 0)
    { topicDigest := 5, message := [1], ttl := 5, publishers := [] }
    [7, 8] rfl).1

/-! ## Claim C2: TTL decay -/

/-- Claim C2: for a non-duplicate event with no local subscription
match, `route` decrements the TTL by exactly one (the `uint32`
decrement `dec32`); when the result is 0 the event is dropped with
only the TTL tap and no send of any kind, and whenever the result is
non-zero the event proceeds with a non-zero TTL and no TTL tap, so
nothing reaches the well-informed step or the random fallback with
`ttl = 0`. -/
theorem route_ttl_decay (cfg : Config) (posD : Hash160Digest → List Nat)
    (h160p : Pubkey → Hash160Digest) (self : Pubkey)
    (subscribers : List (Nat × List Sink))
    (peers : List (Pubkey × PeerData)) (connected : List Pubkey)
    (rnd : Nat → Nat) (e : Event) (r : RouteResult)
    (hsub : alookup e.topicDigest subscribers = none)
    (hlt : e.ttl < U32)
    (hr : route cfg posD h160p false self subscribers peers connected rnd e
      = r) :
    r.evt.ttl = dec32 e.ttl ∧
    (0 < e.ttl → r.evt.ttl = e.ttl - 1) ∧
    (dec32 e.ttl = 0 →
      r = { evt := { e with ttl := 0 }, delivered := [], sends := [],
            taps := [ETap.dropTTL] }) ∧
    (dec32 e.ttl ≠ 0 → r.evt.ttl ≠ 0 ∧ ETap.dropTTL ∉ r.taps) := by
  subst hr
  unfold route
  simp only [hsub, Bool.false_eq_true, if_false]
  refine ⟨?_, ?_, ?_, ?_⟩
  · rw [routeTail_evt]
  · intro hpos
    rw [routeTail_evt]
    exact dec32_of_pos hpos hlt
  · intro h0
    unfold routeTail
    simp [h0]
  · intro h0
    constructor
    · rw [routeTail_evt]
      exact h0
    · exact routeTail_no_dropTTL cfg posD h160p peers connected rnd _
        (by simpa using h0)

/-- Witness for C2: an event with `ttl = 1`, no duplicate and no
match, is dropped with exactly the TTL tap. -/
theorem route_ttl_decay_witness :
    route ⟨1024, 4, 3, 5⟩ (fun d => [d % 8]) (fun pk => pk + 100) false 42
        [] [] [] (fun _ => 0)
        { topicDigest := 5, message := [1], ttl := 1, publishers := [] } =
      { evt := { topicDigest := 5, message := [1], ttl := 0, publishers := [] },
        delivered := [], sends := [], taps := [ETap.dropTTL] } :=
  (route_ttl_decay ⟨1024, 4, 3, 5⟩ (fun d => [d % 8]) (fun pk => pk + 100)
    42 [] [] [] (fun _ => 0)
    { topicDigest := 5, message := [1], ttl := 1, publishers := [] }
    _ rfl (by decide) rfl).2.2.1 (by decide)

/-! ## Claim C10: zero default TTL wraps at publish -/

/-- Claim C10: `Publish` performs no TTL validation.  With a
configured `defaultEventTTL = 0`, a non-duplicate published event
without a local subscription match has its TTL wrapped by the
unsigned decrement to `2^32 - 1`, so routing proceeds to the
forwarding steps (no TTL-drop tap), and the event is actually sent
whenever a neighbor is available. -/
theorem publish_zero_ttl_wraps (cfg : Config)
    (posD : Hash160Digest → List Nat) (h160 : List Nat → Hash160Digest)
    (h160p : Pubkey → Hash160Digest) (self : Pubkey)
    (subscribers : List (Nat × List Sink))
    (peers : List (Pubkey × PeerData)) (connected : List Pubkey)
    (rnd : Nat → Nat) (topic message : List Nat) (r : RouteResult)
    (hcfg : cfg.defaultEventTTL = 0)
    (hsub : alookup (h160 topic) subscribers = none)
    (hr : (Publish cfg posD h160 h160p false self subscribers peers connected
      rnd topic message).2 = r) :
    r.evt.ttl = U32 - 1 ∧
    ETap.dropTTL ∉ r.taps ∧
    (connected ≠ [] → rnd connected.length < connected.length →
      r.sends ≠ []) := by
  subst hr
  unfold Publish newEvent route
  simp only [hcfg, Nat.zero_mod, hsub, Bool.false_eq_true, if_false]
  have httl : dec32 0 ≠ 0 := by
    rw [dec32_zero]
    decide
  refine ⟨?_, ?_, ?_⟩
  · rw [routeTail_evt]
    exact dec32_zero
  · exact routeTail_no_dropTTL _ _ _ _ _ _ _ httl
  · intro hc hrnd
    exact routeTail_sends_ne_nil _ _ _ _ _ _ _ httl hc hrnd

/-- Witness for C10: with default TTL 0 and one connected neighbor,
the published event wraps to `2^32 - 1` and is sent. -/
theorem publish_zero_ttl_wraps_witness :
    (Publish ⟨1024, 4, 3, 0⟩ (fun d => [d % 8]) (fun t => t.headD 0)
        (fun pk => pk + 100) false 42 [] [] [9] (fun _ => 0)
        [2] [3]).2.evt.ttl = U32 - 1 ∧
    (Publish ⟨1024, 4, 3, 0⟩ (fun d => [d % 8]) (fun t => t.headD 0)
        (fun pk => pk + 100) false 42 [] [] [9] (fun _ => 0)
        [2] [3]).2.sends ≠ [] :=
  ⟨(publish_zero_ttl_wraps ⟨1024, 4, 3, 0⟩ (fun d => [d % 8])
      (fun t => t.headD 0) (fun pk => pk + 100) 42 [] [] [9] (fun _ => 0)
      [2] [3] _ rfl rfl rfl).1,
   (publish_zero_ttl_wraps ⟨1024, 4, 3, 0⟩ (fun d => [d % 8])
      (fun t => t.headD 0) (fun pk => pk + 100) 42 [] [] [9] (fun _ => 0)
      [2] [3] _ rfl rfl rfl).2.2 (by decide) (by decide)⟩

/-! ## Claims C7 (update discard) and C8 (ingest idempotence) -/

/-- Counterexample to C7 as stated: a structurally invalid update
(wrong filter length, sender connected) is discarded by the
dispatcher with NO tap at all — the `UpdatesFail` tap is not
emitted. -/
theorem dispatch_invalid_no_fail_tap :
    validUpdate (some { peer := some 1, index := 0, filter := [] })
      ⟨8, 4, 3, 5⟩ = false ∧
    dispatchUpdate ⟨8, 4, 3, 5⟩ (fun _ => true) 0 []
      (some { peer := some 1, index := 0, filter := [] }) = ([], []) := by
  constructor
  · decide
  · rfl

/-- Claim C7 (amended): every invalid inbound update is silently
discarded without modifying the peer table; the `UpdatesFail` tap is
emitted exactly for updates that pass structural validation but whose
sender is not currently connected, while structurally invalid updates
(nil update, nil peer, out-of-range index, wrong filter length) are
dropped by the dispatcher with no tap. -/
theorem dispatch_invalid_discard (cfg : Config) (isConn : Pubkey → Bool)
    (now : Nat) (peers : List (Pubkey × PeerData)) (u : Option Update) :
    (validUpdate u cfg = false →
      dispatchUpdate cfg isConn now peers u = (peers, [])) ∧
    (∀ v pk, u = some v → v.peer = some pk → validUpdate u cfg = true →
      isConn pk = false →
      dispatchUpdate cfg isConn now peers u
        = (peers, [UTap.received, UTap.fail])) := by
  constructor
  · intro hinv
    unfold dispatchUpdate
    simp [hinv]
  · intro v pk hu hpk hvalid hconn
    subst hu
    unfold dispatchUpdate
    simp only [hvalid, if_true, hpk]
    unfold processUpdate
    simp [hconn]

/-- Witness for C7 (amended): both discard shapes at concrete
inputs. -/
theorem dispatch_invalid_discard_witness :
    dispatchUpdate ⟨8, 4, 3, 5⟩ (fun _ => true) 0 []
      (some { peer := some 1, index := 0, filter := [] }) = ([], []) ∧
    dispatchUpdate ⟨8, 4, 3, 5⟩ (fun _ => false) 0 []
      (some { peer := some 1, index := 0, filter := [0] })
      = ([], [UTap.received, UTap.fail]) :=
  ⟨(dispatch_invalid_discard ⟨8, 4, 3, 5⟩ (fun _ => true) 0 []
      (some { peer := some 1, index := 0, filter := [] })).1 (by decide),
   (dispatch_invalid_discard ⟨8, 4, 3, 5⟩ (fun _ => false) 0 []
      (some { peer := some 1, index := 0, filter := [0] })).2
      { peer := some 1, index := 0, filter := [0] } 1 rfl rfl (by decide) rfl⟩

/-- Claim C8: processing the same accepted update bytes (same peer,
index and filter) a second time, with the two ingestions observing
the same millisecond clock reading `now`, leaves the whole peer table
— and in particular the peer's entry with its filters and
timestamps — identical to its state after the first processing. -/
theorem processUpdate_idempotent (cfg : Config) (isConn : Pubkey → Bool)
    (now : Nat) (peers : List (Pubkey × PeerData)) (pk : Pubkey)
    (index : Nat) (filter : List Nat)
    (hconn : isConn pk = true) :
    (processUpdate cfg isConn now
        (processUpdate cfg isConn now peers pk index filter).1
        pk index filter).1
      = (processUpdate cfg isConn now peers pk index filter).1 ∧
    alookup pk (processUpdate cfg isConn now
        (processUpdate cfg isConn now peers pk index filter).1
        pk index filter).1
      = alookup pk (processUpdate cfg isConn now peers pk index filter).1 := by
  have h1 : (processUpdate cfg isConn now
      (processUpdate cfg isConn now peers pk index filter).1
      pk index filter).1
    = (processUpdate cfg isConn now peers pk index filter).1 := by
    unfold processUpdate
    simp only [hconn, Bool.true_eq_false, if_false]
    rw [alookup_insertEntry_self]
    simp only [Option.getD_some, List.set_set]
    exact insertEntry_insertEntry_self _ _ _ _
  exact ⟨h1, by rw [h1]⟩

/-- Witness for C8: a concrete double ingestion. -/
theorem processUpdate_idempotent_witness :
    (processUpdate ⟨8, 4, 3, 5⟩ (fun _ => true) 1700000000
        (processUpdate ⟨8, 4, 3, 5⟩ (fun _ => true) 1700000000 [] 1 0 [7]).1
        1 0 [7]).1
      = (processUpdate ⟨8, 4, 3, 5⟩ (fun _ => true) 1700000000 [] 1 0 [7]).1 :=
  (processUpdate_idempotent ⟨8, 4, 3, 5⟩ (fun _ => true) 1700000000 [] 1 0 [7]
    rfl).1

/-! ## Claim C6: update validation bounds installation -/

/-- Claim C6: `validUpdate` holds exactly when the update and its
peer pointer are non-nil, the index is below `D - 1` and the filter
has exactly `M/8` bytes; and because the dispatcher hands an update
to `processUpdate` only under `validUpdate`, a dispatch step never
installs update bytes at any level `i ≥ D - 1`: the filter seen there
afterwards is either unchanged or the zero filter of a freshly
initialized entry. -/
theorem validUpdate_spec (cfg : Config) (isConn : Pubkey → Bool) (now : Nat)
    (peers : List (Pubkey × PeerData)) (u : Option Update)
    (hD : 2 ≤ cfg.filtersDepth) (hDlt : cfg.filtersDepth < U32) :
    (validUpdate u cfg = true ↔
      ∃ v pk, u = some v ∧ v.peer = some pk ∧
        v.index < cfg.filtersDepth - 1 ∧
        v.filter.length = cfg.filtersM / 8) ∧
    (∀ pk i, cfg.filtersDepth - 1 ≤ i →
      peerFilterAt (dispatchUpdate cfg isConn now peers u).1 pk i
          = peerFilterAt peers pk i ∨
      peerFilterAt (dispatchUpdate cfg isConn now peers u).1 pk i
          = some ((newFilters cfg).getD i [])) := by
  have hdec : dec32 cfg.filtersDepth = cfg.filtersDepth - 1 :=
    dec32_of_pos (by omega) hDlt
  constructor
  · cases u with
    | none => simp [validUpdate]
    | some v =>
        simp only [validUpdate, Bool.and_eq_true, decide_eq_true_eq, hdec,
          Option.isSome_iff_exists]
        constructor
        · rintro ⟨⟨⟨pk, hpk⟩, hidx⟩, hlen⟩
          exact ⟨v, pk, rfl, hpk, hidx, hlen⟩
        · rintro ⟨v', pk, hv, hpk, hidx, hlen⟩
          cases hv
          exact ⟨⟨⟨pk, hpk⟩, hidx⟩, hlen⟩
  · intro pk i hi
    by_cases hval : validUpdate u cfg = true
    · obtain ⟨v, hu⟩ : ∃ v, u = some v := by
        cases u with
        | none => simp [validUpdate] at hval
        | some v => exact ⟨v, rfl⟩
      subst hu
      obtain ⟨pk', hpk'⟩ : ∃ pk', v.peer = some pk' := by
        rcases hb : v.peer with _ | pk'
        · simp [validUpdate, hb] at hval
        · exact ⟨pk', rfl⟩
      have hidx : v.index < cfg.filtersDepth - 1 := by
        simp only [validUpdate, Bool.and_eq_true, decide_eq_true_eq,
          hdec] at hval
        exact hval.1.2
      have hne : v.index ≠ i := by omega
      unfold dispatchUpdate
      rw [if_pos hval]
      simp only [hpk']
      unfold processUpdate
      by_cases hconn : isConn pk' = false
      · rw [if_pos hconn]
        left
        rfl
      · rw [if_neg hconn]
        by_cases hpk2 : pk = pk'
        · subst hpk2
          cases halo : alookup pk peers with
          | none =>
              right
              unfold peerFilterAt
              rw [alookup_insertEntry_self]
              simp [List.getD, List.getElem?_set_ne hne]
          | some pd =>
              left
              unfold peerFilterAt
              rw [alookup_insertEntry_self, halo]
              simp [List.getD, List.getElem?_set_ne hne]
        · left
          unfold peerFilterAt
          rw [alookup_insertEntry_ne _ _ _ _ hpk2]
    · left
      unfold dispatchUpdate
      rw [if_neg hval]

/-- Witness for C6: a valid concrete update and a dispatch step whose
top level stays the fresh zero filter. -/
theorem validUpdate_spec_witness :
    validUpdate (some { peer := some 1, index := 0, filter := [9] })
      ⟨8, 4, 3, 5⟩ = true ∧
    (peerFilterAt (dispatchUpdate ⟨8, 4, 3, 5⟩ (fun _ => true) 7 []
        (some { peer := some 1, index := 0, filter := [9] })).1 1 2
        = peerFilterAt [] 1 2 ∨
      peerFilterAt (dispatchUpdate ⟨8, 4, 3, 5⟩ (fun _ => true) 7 []
        (some { peer := some 1, index := 0, filter := [9] })).1 1 2
        = some ((newFilters ⟨8, 4, 3, 5⟩).getD 2 [])) :=
  ⟨(validUpdate_spec ⟨8, 4, 3, 5⟩ (fun _ => true) 7 []
      (some { peer := some 1, index := 0, filter := [9] })
      (by decide) (by decide)).1.mpr
      ⟨{ peer := some 1, index := 0, filter := [9] }, 1, rfl, rfl,
        by decide, by decide⟩,
   (validUpdate_spec ⟨8, 4, 3, 5⟩ (fun _ => true) 7 []
      (some { peer := some 1, index := 0, filter := [9] })
      (by decide) (by decide)).2 1 2 (by decide)⟩

/-! ## Claim C9: subscription and topic tables stay aligned -/

/-- Claim C9: after any completed `Subscribe` or `Unsubscribe`, the
subscription table and the topic table have identical key sets —
each operation inserts a digest into both maps or neither, and
removes it from both or neither. -/
theorem subscribe_unsubscribe_keys_aligned
    (h160 : List Nat → Hash160Digest) (s : SubState)
    (topic topic' : List Nat) (receiver : Sink) (receiver' : Option Sink)
    (h : keysAligned s) :
    keysAligned (Subscribe h160 s topic receiver) ∧
    keysAligned (Unsubscribe h160 s topic' receiver') := by
  constructor
  · intro d
    cases hl : alookup (h160 topic) s.subscribers with
    | none =>
        simp only [Subscribe, hl]
        by_cases hd : d = h160 topic
        · rw [hd, alookup_insertEntry_self, alookup_insertEntry_self]
          rfl
        · rw [alookup_insertEntry_ne _ _ _ _ hd,
            alookup_insertEntry_ne _ _ _ _ hd]
          exact h d
    | some receivers =>
        simp only [Subscribe, hl]
        by_cases hd : d = h160 topic
        · rw [hd, alookup_insertEntry_self]
          have htop := h (h160 topic)
          rw [hl] at htop
          simp only [Option.isSome_some] at htop ⊢
          exact htop
        · rw [alookup_insertEntry_ne _ _ _ _ hd]
          exact h d
  · intro d
    cases hl : alookup (h160 topic') s.subscribers with
    | none =>
        simp only [Unsubscribe, hl]
        exact h d
    | some receivers =>
        cases receiver' with
        | none =>
            simp only [Unsubscribe, hl]
            split
            · by_cases hd : d = h160 topic'
              · rw [alookup_eraseEntry, alookup_eraseEntry, if_pos hd,
                  if_pos hd]
              · rw [alookup_eraseEntry, alookup_eraseEntry, if_neg hd,
                  if_neg hd]
                exact h d
            · exact h d
        | some rcv =>
            simp only [Unsubscribe, hl]
            split
            · by_cases hd : d = h160 topic'
              · rw [alookup_eraseEntry, alookup_eraseEntry, if_pos hd,
                  if_pos hd]
              · rw [alookup_eraseEntry, alookup_eraseEntry, if_neg hd,
                  if_neg hd, alookup_insertEntry_ne _ _ _ _ hd]
                exact h d
            · by_cases hd : d = h160 topic'
              · rw [hd, alookup_insertEntry_self]
                have htop := h (h160 topic')
                rw [hl] at htop
                simp only [Option.isSome_some] at htop ⊢
                exact htop
              · rw [alookup_insertEntry_ne _ _ _ _ hd]
                exact h d

/-- Witness for C9: both operations on a concrete aligned state keep
a concrete digest aligned. -/
theorem subscribe_unsubscribe_keys_aligned_witness :
    (alookup 5 ((Subscribe (fun t => t.headD 0) ⟨[], []⟩ [5] 7)
        ).subscribers).isSome
      = (alookup 5 ((Subscribe (fun t => t.headD 0) ⟨[], []⟩ [5] 7)
        ).topics).isSome ∧
    (alookup 5 ((Unsubscribe (fun t => t.headD 0) ⟨[], []⟩ [5] (some 7))
        ).subscribers).isSome
      = (alookup 5 ((Unsubscribe (fun t => t.headD 0) ⟨[], []⟩ [5] (some 7))
        ).topics).isSome :=
  ⟨(subscribe_unsubscribe_keys_aligned (fun t => t.headD 0) ⟨[], []⟩
      [5] [5] 7 (some 7) (fun _ => rfl)).1 5,
   (subscribe_unsubscribe_keys_aligned (fun t => t.headD 0) ⟨[], []⟩
      [5] [5] 7 (some 7) (fun _ => rfl)).2 5⟩

/-! ## The well-informed scan as a first-match over level-major
pairs -/

theorem find?_append_or (l m : List α) (p : α → Bool) :
    (l ++ m).find? p = (l.find? p).orElse fun _ => m.find? p := by
  induction l with
  | nil => simp [List.find?]
  | cons x xs ih =>
      by_cases h : p x <;> simp [List.find?_cons, h, ih]

theorem find?_flatMap (l : List α) (g : α → List β) (p : β → Bool) :
    (l.flatMap g).find? p = l.findSome? (fun a => (g a).find? p) := by
  induction l with
  | nil => simp
  | cons x xs ih =>
      rw [List.flatMap_cons, find?_append_or, ih, List.findSome?_cons]
      cases h : (g x).find? p <;> simp [Option.orElse, h]

theorem map_option_findSome? (f : α → Option β) (m : β → γ) (l : List α) :
    (l.findSome? f).map m = l.findSome? (fun a => (f a).map m) := by
  induction l with
  | nil => simp
  | cons x xs ih =>
      cases h : f x <;> simp [List.findSome?_cons, h, ih]

theorem wellFindAtLevel_eq_find? (posD : Hash160Digest → List Nat)
    (h160p : Pubkey → Hash160Digest) (e : Event) (i : Nat)
    (peers : List (Pubkey × PeerData)) :
    wellFindAtLevel posD h160p e i peers
      = ((peers.map (fun pd => (i, pd.1, pd.2))).find?
          (qualifies posD h160p e)).map (fun x => x.2.1) := by
  induction peers with
  | nil => rfl
  | cons pd rest ih =>
      simp only [wellFindAtLevel, List.findSome?_cons, List.map_cons,
        List.find?_cons, qualifies] at ih ⊢
      generalize filterContainsDigest posD (pd.2.filters.getD i [])
        e.topicDigest = c
      generalize (e.publishers.any
        (fun pub => filterContains posD h160p (pd.2.filters.getD i []) pub)) = b
      simp only [List.getD_eq_getElem?_getD, List.any_eq_true] at ih
      cases c <;> cases b <;> simp [ih]

theorem wellInformed_eq_find? (cfg : Config)
    (posD : Hash160Digest → List Nat) (h160p : Pubkey → Hash160Digest)
    (peers : List (Pubkey × PeerData)) (e : Event) :
    wellInformed cfg posD h160p peers e
      = ((levelPeerPairs cfg peers).find? (qualifies posD h160p e)).map
          (fun x => x.2.1) := by
  have hfun : (fun i => wellFindAtLevel posD h160p e i peers)
      = fun i => ((peers.map (fun pd => (i, pd.1, pd.2))).find?
          (qualifies posD h160p e)).map (fun x => x.2.1) :=
    funext fun i => wellFindAtLevel_eq_find? posD h160p e i peers
  unfold wellInformed levelPeerPairs
  rw [hfun, ← map_option_findSome?, ← find?_flatMap]

/-! ## Claim C3: well-informed forwarding takes the first qualifying
pair -/

/-- Claim C3: for a non-duplicate event with no local match and a
non-zero decremented TTL, when the level-major enumeration of
(level, peer) pairs has a first qualifying element `x` — its filter
at that level contains the topic digest and none of the event's
publishers — `route` forwards to exactly that one peer with the
well-informed tap and returns; the found pair itself satisfies the
qualification, so a peer whose matching filter contains a publisher
is never the one chosen. -/
theorem route_well_informed (cfg : Config)
    (posD : Hash160Digest → List Nat) (h160p : Pubkey → Hash160Digest)
    (self : Pubkey) (subscribers : List (Nat × List Sink))
    (peers : List (Pubkey × PeerData)) (connected : List Pubkey)
    (rnd : Nat → Nat) (e : Event) (x : Nat × Pubkey × PeerData)
    (hsub : alookup e.topicDigest subscribers = none)
    (httl : dec32 e.ttl ≠ 0)
    (hfind : (levelPeerPairs cfg peers).find?
        (qualifies posD h160p { e with ttl := dec32 e.ttl }) = some x) :
    route cfg posD h160p false self subscribers peers connected rnd e =
      { evt := { e with ttl := dec32 e.ttl }, delivered := [],
        sends := [x.2.1], taps := [ETap.routeWell x.2.1] } ∧
    qualifies posD h160p { e with ttl := dec32 e.ttl } x = true := by
  constructor
  · unfold route
    simp only [hsub, Bool.false_eq_true, if_false]
    unfold routeTail
    rw [if_neg (by simpa using httl), wellInformed_eq_find?, hfind]
    rfl
  · exact List.find?_some hfind

/-- Witness for C3: two peers, the second one having a matching
level-0 filter; the event goes to it through the well branch. -/
theorem route_well_informed_witness :
    route ⟨8, 1, 2, 5⟩ (fun d => [d % 8]) (fun pk => pk) false 42 []
        [(1, ⟨[[0], [0]], [0, 0]⟩), (2, ⟨[[255], [0]], [0, 0]⟩)]
        [7] (fun _ => 0)
        { topicDigest := 3, message := [9], ttl := 5, publishers := [] } =
      { evt := { topicDigest := 3, message := [9], ttl := 4, publishers := [] },
        delivered := [], sends := [2], taps := [ETap.routeWell 2] } :=
  (route_well_informed ⟨8, 1, 2, 5⟩ (fun d => [d % 8]) (fun pk => pk) 42 []
    [(1, ⟨[[0], [0]], [0, 0]⟩), (2, ⟨[[255], [0]], [0, 0]⟩)] [7] (fun _ => 0)
    { topicDigest := 3, message := [9], ttl := 5, publishers := [] }
    (0, 2, ⟨[[255], [0]], [0, 0]⟩) rfl (by decide) (by decide)).1

/-! ## Claim C4: random fallback -/

/-- Claim C4: when no (level, peer) pair qualifies for well-informed
forwarding, `route` forwards to the connected neighbor selected by
the random draw `rnd connected.length` (the embedding of
`rand.Intn`, which yields each index below the length), and when no
neighbor is connected it performs no send and emits no tap at all. -/
theorem route_random_fallback (cfg : Config)
    (posD : Hash160Digest → List Nat) (h160p : Pubkey → Hash160Digest)
    (self : Pubkey) (subscribers : List (Nat × List Sink))
    (peers : List (Pubkey × PeerData)) (connected : List Pubkey)
    (rnd : Nat → Nat) (e : Event)
    (hsub : alookup e.topicDigest subscribers = none)
    (httl : dec32 e.ttl ≠ 0)
    (hq : ∀ x ∈ levelPeerPairs cfg peers,
      ¬qualifies posD h160p { e with ttl := dec32 e.ttl } x = true) :
    (connected = [] →
      route cfg posD h160p false self subscribers peers connected rnd e =
        { evt := { e with ttl := dec32 e.ttl }, delivered := [],
          sends := [], taps := [] }) ∧
    (∀ hk : rnd connected.length < connected.length,
      route cfg posD h160p false self subscribers peers connected rnd e =
        { evt := { e with ttl := dec32 e.ttl }, delivered := [],
          sends := [connected.get ⟨rnd connected.length, hk⟩],
          taps := [ETap.routeRandom
            (connected.get ⟨rnd connected.length, hk⟩)] }) := by
  have hw : wellInformed cfg posD h160p peers { e with ttl := dec32 e.ttl }
      = none := by
    rw [wellInformed_eq_find?, List.find?_eq_none.mpr hq]
    rfl
  constructor
  · intro hc
    subst hc
    unfold route
    simp only [hsub, Bool.false_eq_true, if_false]
    unfold routeTail
    rw [if_neg (by simpa using httl), hw]
    rfl
  · intro hk
    unfold route
    simp only [hsub, Bool.false_eq_true, if_false]
    unfold routeTail
    rw [if_neg (by simpa using httl), hw]
    unfold randomPeer
    have hne0 : connected.length ≠ 0 := by omega
    rw [if_neg hne0, List.getElem?_eq_getElem hk]
    rfl

/-- Witness for C4: no peer data at all, one connected neighbor; the
event falls back to it. -/
theorem route_random_fallback_witness :
    route ⟨8, 1, 2, 5⟩ (fun d => [d % 8]) (fun pk => pk) false 42 [] [] [9]
        (fun _ => 0)
        { topicDigest := 3, message := [9], ttl := 5, publishers := [] } =
      { evt := { topicDigest := 3, message := [9], ttl := 4, publishers := [] },
        delivered := [], sends := [9], taps := [ETap.routeRandom 9] } :=
  (route_random_fallback ⟨8, 1, 2, 5⟩ (fun d => [d % 8]) (fun pk => pk) 42 []
    [] [9] (fun _ => 0)
    { topicDigest := 3, message := [9], ttl := 5, publishers := [] }
    rfl (by decide) (by intro x hx; simp [levelPeerPairs] at hx)).2
    (by decide)

/-! ## Bit-level lemmas for the Bloom filter model -/

theorem setBit_length (f : Filter) (p : Nat) :
    (setBit f p).length = f.length := by
  simp [setBit]

theorem getBit_setBit_of_getBit (f : Filter) (p q : Nat)
    (h : getBit f q = true) : getBit (setBit f p) q = true := by
  unfold getBit at h
  unfold getBit setBit
  by_cases hb : p / 8 = q / 8
  · rw [← hb] at h ⊢
    by_cases hlen : p / 8 < f.length
    · rw [List.getD_eq_getElem?_getD, List.getElem?_set_self hlen,
        Option.getD_some, Nat.testBit_lor, h, Bool.true_or]
    · rw [List.set_eq_of_length_le (Nat.le_of_not_lt hlen)]
      exact h
  · rw [List.getD_eq_getElem?_getD, List.getElem?_set_ne hb,
      ← List.getD_eq_getElem?_getD]
    exact h

theorem getBit_setBit_self (f : Filter) (p : Nat) (hlen : p / 8 < f.length) :
    getBit (setBit f p) p = true := by
  unfold getBit setBit
  rw [List.getD_eq_getElem?_getD, List.getElem?_set_self hlen,
    Option.getD_some, Nat.testBit_lor, Nat.shiftLeft_eq, one_mul,
    Nat.testBit_two_pow_self, Bool.or_true]

theorem foldl_setBit_length (ps : List Nat) (f : Filter) :
    (ps.foldl setBit f).length = f.length := by
  induction ps generalizing f with
  | nil => rfl
  | cons p rest ih => rw [List.foldl_cons, ih, setBit_length]

theorem getBit_foldl_setBit_of_getBit (ps : List Nat) (f : Filter) (q : Nat)
    (h : getBit f q = true) : getBit (ps.foldl setBit f) q = true := by
  induction ps generalizing f with
  | nil => exact h
  | cons p rest ih => exact ih _ (getBit_setBit_of_getBit f p q h)

theorem getBit_foldl_setBit_self :
    ∀ (ps : List Nat) (f : Filter) (p : Nat), p ∈ ps → p / 8 < f.length →
      getBit (ps.foldl setBit f) p = true
  | [], _, p, hp, _ => absurd hp (List.not_mem_nil p)
  | a :: rest, f, p, hp, hlen => by
      rw [List.foldl_cons]
      rcases List.mem_cons.mp hp with h1 | h2
      · subst h1
        exact getBit_foldl_setBit_of_getBit rest _ p
          (getBit_setBit_self f p hlen)
      · exact getBit_foldl_setBit_self rest (setBit f a) p h2
          (by rw [setBit_length]; exact hlen)

theorem insertDigest_length (posD : Hash160Digest → List Nat) (f : Filter)
    (d : Hash160Digest) : (insertDigest posD f d).length = f.length :=
  foldl_setBit_length _ _

theorem contains_insertDigest_self (posD : Hash160Digest → List Nat)
    (f : Filter) (d : Hash160Digest)
    (hb : ∀ p ∈ posD d, p / 8 < f.length) :
    filterContainsDigest posD (insertDigest posD f d) d = true := by
  unfold filterContainsDigest insertDigest
  rw [List.all_eq_true]
  intro p hp
  exact getBit_foldl_setBit_self (posD d) f p hp (hb p hp)

theorem contains_insertDigest_of_contains (posD : Hash160Digest → List Nat)
    (f : Filter) (d d' : Hash160Digest)
    (h : filterContainsDigest posD f d' = true) :
    filterContainsDigest posD (insertDigest posD f d) d' = true := by
  unfold filterContainsDigest at h ⊢
  rw [List.all_eq_true] at h ⊢
  intro p hp
  exact getBit_foldl_setBit_of_getBit _ _ _ (h p hp)

theorem foldl_insertDigest_length (posD : Hash160Digest → List Nat)
    (ds : List Hash160Digest) (f : Filter) :
    (ds.foldl (insertDigest posD) f).length = f.length := by
  induction ds generalizing f with
  | nil => rfl
  | cons d rest ih => rw [List.foldl_cons, ih, insertDigest_length]

theorem contains_foldl_insertDigest_of_contains
    (posD : Hash160Digest → List Nat) (ds : List Hash160Digest) (f : Filter)
    (d' : Hash160Digest) (h : filterContainsDigest posD f d' = true) :
    filterContainsDigest posD (ds.foldl (insertDigest posD) f) d' = true := by
  induction ds generalizing f with
  | nil => exact h
  | cons d rest ih =>
      exact ih _ (contains_insertDigest_of_contains posD f d d' h)

theorem contains_foldl_insertDigest_self (posD : Hash160Digest → List Nat) :
    ∀ (ds : List Hash160Digest) (f : Filter) (d : Hash160Digest), d ∈ ds →
      (∀ p ∈ posD d, p / 8 < f.length) →
      filterContainsDigest posD (ds.foldl (insertDigest posD) f) d = true
  | [], _, d, hd, _ => absurd hd (List.not_mem_nil d)
  | a :: rest, f, d, hd, hb => by
      rw [List.foldl_cons]
      rcases List.mem_cons.mp hd with h1 | h2
      · subst h1
        exact contains_foldl_insertDigest_of_contains posD rest _ d
          (contains_insertDigest_self posD f d hb)
      · exact contains_foldl_insertDigest_self posD rest
          (insertDigest posD f a) d h2
          (by rw [insertDigest_length]; exact hb)

theorem newFilterFromDigests_contains (posD : Hash160Digest → List Nat)
    (cfg : Config) (ds : List Hash160Digest) (d : Hash160Digest)
    (hdvd : 8 ∣ cfg.filtersM) (hpos : ∀ p ∈ posD d, p < cfg.filtersM)
    (hd : d ∈ ds) :
    filterContainsDigest posD (newFilterFromDigests posD cfg ds) d = true := by
  unfold newFilterFromDigests
  apply contains_foldl_insertDigest_self posD ds _ d hd
  intro p hp
  have h1 : p / 8 < cfg.filtersM / 8 :=
    Nat.div_lt_div_of_lt_of_dvd hdvd (hpos p hp)
  simpa [newFilter] using h1

/-! ## Index lemmas for the propagation merge -/

theorem imap_length (g : Nat → α → α) (k : Nat) (l : List α) :
    (imap g k l).length = l.length := by
  induction l generalizing k with
  | nil => rfl
  | cons x xs ih => simp [imap, ih]

theorem imap_getD (g : Nat → α → α) (k j : Nat) (l : List α) (d : α) :
    (imap g k l).getD j d
      = if j < l.length then g (k + j) (l.getD j d) else d := by
  induction l generalizing k j with
  | nil => simp [imap]
  | cons x xs ih =>
      cases j with
      | zero => simp [imap]
      | succ j' =>
          simp only [imap, List.getD_cons_succ, List.length_cons, ih,
            Nat.add_lt_add_iff_right]
          have hk : k + 1 + j' = k + (j' + 1) := by omega
          rw [hk]

theorem byteOR_length (size : Nat) (a b : Filter) :
    (byteOR size a b).length = a.length :=
  imap_length _ _ _

theorem byteOR_getD (size : Nat) (a b : Filter) (j : Nat) (hja : j < a.length)
    (hjs : j < size) :
    (byteOR size a b).getD j 0 = a.getD j 0 ||| b.getD j 0 := by
  unfold byteOR
  rw [imap_getD]
  simp [hja, hjs]

theorem mergePeer_length (cfg : Config) (fs : List Filter) (pd : PeerData) :
    (mergePeer cfg fs pd).length = fs.length :=
  imap_length _ _ _

theorem mergePeer_getD_zero (cfg : Config) (fs : List Filter) (pd : PeerData)
    (h0 : 0 < fs.length) :
    (mergePeer cfg fs pd).getD 0 [] = fs.getD 0 [] := by
  unfold mergePeer
  rw [imap_getD]
  simp [h0]

theorem mergePeer_getD_pos (cfg : Config) (fs : List Filter) (pd : PeerData)
    (i : Nat) (h1 : 1 ≤ i) (hi : i < fs.length) :
    (mergePeer cfg fs pd).getD i []
      = byteOR (cfg.filtersM / 8) (fs.getD i []) (pd.filters.getD (i - 1) []) := by
  unfold mergePeer
  rw [imap_getD]
  simp [hi, h1]

theorem mergePeer_level_length (cfg : Config) (fs : List Filter)
    (pd : PeerData) (i : Nat) (hi : i < fs.length) :
    ((mergePeer cfg fs pd).getD i []).length = (fs.getD i []).length := by
  by_cases h1 : 1 ≤ i
  · rw [mergePeer_getD_pos cfg fs pd i h1 hi, byteOR_length]
  · have h0 : i = 0 := by omega
    subst h0
    rw [mergePeer_getD_zero cfg fs pd (by omega)]

theorem foldl_mergePeer_length (cfg : Config) :
    ∀ (ps : List (Pubkey × PeerData)) (fs : List Filter),
      (ps.foldl (fun fs pd => mergePeer cfg fs pd.2) fs).length = fs.length
  | [], _ => rfl
  | p :: rest, fs => by
      rw [List.foldl_cons, foldl_mergePeer_length cfg rest, mergePeer_length]

theorem foldl_mergePeer_getD_zero (cfg : Config) :
    ∀ (ps : List (Pubkey × PeerData)) (fs : List Filter), 0 < fs.length →
      (ps.foldl (fun fs pd => mergePeer cfg fs pd.2) fs).getD 0 []
        = fs.getD 0 []
  | [], _, _ => rfl
  | p :: rest, fs, h0 => by
      rw [List.foldl_cons,
        foldl_mergePeer_getD_zero cfg rest (mergePeer cfg fs p.2)
          (by rw [mergePeer_length]; exact h0),
        mergePeer_getD_zero cfg fs p.2 h0]

theorem foldl_mergePeer_byte (cfg : Config) :
    ∀ (ps : List (Pubkey × PeerData)) (fs : List Filter) (i j : Nat),
      1 ≤ i → i < fs.length →
      (∀ i', i' < fs.length → (fs.getD i' []).length = cfg.filtersM / 8) →
      j < cfg.filtersM / 8 →
      ((ps.foldl (fun fs pd => mergePeer cfg fs pd.2) fs).getD i []).getD j 0
        = (ps.map (fun pd => (pd.2.filters.getD (i - 1) []).getD j 0)).foldl
            (fun a b => a ||| b) ((fs.getD i []).getD j 0)
  | [], _, _, _, _, _, _, _ => rfl
  | p :: rest, fs, i, j, h1, hi, hlv, hj => by
      rw [List.foldl_cons, List.map_cons, List.foldl_cons,
        foldl_mergePeer_byte cfg rest (mergePeer cfg fs p.2) i j h1
          (by rw [mergePeer_length]; exact hi)
          (by
            intro i' hi'
            rw [mergePeer_length] at hi'
            rw [mergePeer_level_length cfg fs p.2 i' hi']
            exact hlv i' hi')
          hj]
      rw [mergePeer_getD_pos cfg fs p.2 i h1 hi,
        byteOR_getD _ _ _ j (by rw [hlv i hi]; exact hj) hj]

/-! ## Levels of the freshly built local vector -/

theorem newFilters_level_getD (cfg : Config) (i : Nat)
    (hi : i < cfg.filtersDepth) :
    (newFilters cfg).getD i [] = newFilter cfg := by
  unfold newFilters
  rw [List.getD_eq_getElem?_getD, List.getElem?_replicate]
  simp [hi]

theorem set0_getD_zero (cfg : Config) (v : Filter)
    (h : 0 < cfg.filtersDepth) :
    ((newFilters cfg).set 0 v).getD 0 [] = v := by
  rw [List.getD_eq_getElem?_getD,
    List.getElem?_set_self (by simpa [newFilters] using h), Option.getD_some]

theorem set0_getD_pos (cfg : Config) (v : Filter) (i : Nat) (h1 : 1 ≤ i) :
    ((newFilters cfg).set 0 v).getD i [] = (newFilters cfg).getD i [] := by
  rw [List.getD_eq_getElem?_getD,
    List.getElem?_set_ne (by omega : (0 : Nat) ≠ i),
    ← List.getD_eq_getElem?_getD]

theorem set0_level_length (posD : Hash160Digest → List Nat) (cfg : Config)
    (ds : List Hash160Digest) (i : Nat) (hi : i < cfg.filtersDepth) :
    ((((newFilters cfg).set 0 (newFilterFromDigests posD cfg ds))).getD i
      []).length = cfg.filtersM / 8 := by
  by_cases h0 : i = 0
  · subst h0
    rw [set0_getD_zero cfg _ (by omega)]
    unfold newFilterFromDigests
    rw [foldl_insertDigest_length]
    simp [newFilter]
  · rw [set0_getD_pos cfg _ i (by omega), newFilters_level_getD cfg i hi]
    simp [newFilter]

theorem buildFilters_getD_zero (posD : Hash160Digest → List Nat)
    (h160p : Pubkey → Hash160Digest) (cfg : Config) (own : Pubkey)
    (subs : List Hash160Digest) (peers : List (Pubkey × PeerData))
    (hD : 0 < cfg.filtersDepth) :
    (buildFilters posD h160p cfg own subs peers).getD 0 []
      = newFilterFromDigests posD cfg (subs ++ [h160p own]) := by
  unfold buildFilters
  rw [foldl_mergePeer_getD_zero cfg peers _
    (by simp only [List.length_set, newFilters, List.length_replicate]; omega)]
  exact set0_getD_zero cfg _ hD

theorem length_flatMap_range_map (l : List Pubkey) (n : Nat)
    (g : Pubkey → Nat → Pubkey × Nat × Filter) :
    (l.flatMap (fun id => (List.range n).map (g id))).length
      = l.length * n := by
  induction l with
  | nil => simp
  | cons x xs ih =>
      simp only [List.flatMap_cons, List.length_append, List.length_map,
        List.length_range, ih, List.length_cons]
      ring

/-! ## Claim C5: one propagation tick -/

/-- Claim C5: a propagation tick sends to each currently connected
neighbor exactly the `D-1` filter updates with indices `0..D-2` (in
that order; the top level is never transmitted), for a total of
`|connected| * (D-1)` sends; the level-0 filter contains the digest
of every currently subscribed topic and the digest of the node's own
peer-id; and, byte for byte, each local level `i ∈ 1..D-1` is the
bitwise OR over all peer entries of their level `i-1` filters. -/
theorem sendUpdates_spec (posD : Hash160Digest → List Nat)
    (h160p : Pubkey → Hash160Digest) (cfg : Config) (own : Pubkey)
    (subs : List Hash160Digest) (peers : List (Pubkey × PeerData))
    (connected : List Pubkey) (fs : List Filter)
    (sends : List (Pubkey × Nat × Filter))
    (hD : 2 ≤ cfg.filtersDepth) (hDlt : cfg.filtersDepth < U32)
    (hdvd : 8 ∣ cfg.filtersM)
    (hpos : ∀ d p, p ∈ posD d → p < cfg.filtersM)
    (hr : sendUpdates posD h160p cfg own subs peers connected
      = (fs, sends)) :
    sends = connected.flatMap (fun id =>
      (List.range (cfg.filtersDepth - 1)).map
        (fun i => (id, i, fs.getD i []))) ∧
    sends.length = connected.length * (cfg.filtersDepth - 1) ∧
    (∀ d, d ∈ subs ++ [h160p own] →
      filterContainsDigest posD (fs.getD 0 []) d = true) ∧
    (∀ i, 1 ≤ i → i < cfg.filtersDepth → ∀ j, j < cfg.filtersM / 8 →
      (fs.getD i []).getD j 0
        = (peers.map (fun pd => (pd.2.filters.getD (i - 1) []).getD j 0)).foldl
            (fun a b => a ||| b) 0) := by
  have hfs : buildFilters posD h160p cfg own subs peers = fs :=
    congrArg Prod.fst hr
  have hsends : connected.flatMap (fun id =>
      (List.range (dec32 cfg.filtersDepth)).map (fun i =>
        (id, i, (buildFilters posD h160p cfg own subs peers).getD i [])))
      = sends :=
    congrArg Prod.snd hr
  have hdec : dec32 cfg.filtersDepth = cfg.filtersDepth - 1 :=
    dec32_of_pos (by omega) hDlt
  refine ⟨?_, ?_, ?_, ?_⟩
  · rw [← hsends, hdec, hfs]
  · rw [← hsends, hdec, length_flatMap_range_map]
  · intro d hd
    rw [← hfs, buildFilters_getD_zero posD h160p cfg own subs peers
      (by omega)]
    exact newFilterFromDigests_contains posD cfg _ d hdvd
      (fun p hp => hpos d p hp) hd
  · intro i h1 hi j hj
    rw [← hfs]
    unfold buildFilters
    rw [foldl_mergePeer_byte cfg peers _ i j h1
      (by simp only [List.length_set, newFilters, List.length_replicate]
          exact hi)
      (by
        intro i' hi'
        simp only [List.length_set, newFilters, List.length_replicate] at hi'
        exact set0_level_length posD cfg _ i' hi')
      hj]
    have hinit : ((((newFilters cfg).set 0
        (newFilterFromDigests posD cfg (subs ++ [h160p own]))).getD i
          []).getD j 0) = 0 := by
      rw [set0_getD_pos cfg _ i h1, newFilters_level_getD cfg i hi]
      unfold newFilter
      rw [List.getD_eq_getElem?_getD, List.getElem?_replicate]
      split <;> rfl
    rw [hinit]

/-- Witness for C5: one subscription, one peer, one neighbor, D = 2,
M = 8: the level-0 filter contains the topic digest and the own-id
digest, and level 1 is the OR of the peer's level 0. -/
theorem sendUpdates_spec_witness :
    (sendUpdates (fun d => [d % 8]) (fun pk => pk) ⟨8, 1, 2, 0⟩ 1 [3]
        [(2, ⟨[[5], [0]], [0, 0]⟩)] [9]).2.length = 1 * (2 - 1) ∧
    filterContainsDigest (fun d => [d % 8])
      ((sendUpdates (fun d => [d % 8]) (fun pk => pk) ⟨8, 1, 2, 0⟩ 1 [3]
        [(2, ⟨[[5], [0]], [0, 0]⟩)] [9]).1.getD 0 []) 3 = true ∧
    (((sendUpdates (fun d => [d % 8]) (fun pk => pk) ⟨8, 1, 2, 0⟩ 1 [3]
        [(2, ⟨[[5], [0]], [0, 0]⟩)] [9]).1.getD 1 []).getD 0 0)
      = ([(2, (⟨[[5], [0]], [0, 0]⟩ : PeerData))].map
          (fun pd => ((pd.2.filters.getD 0 []).getD 0 0))).foldl
          (fun a b => a ||| b) 0 :=
  ⟨(sendUpdates_spec (fun d => [d % 8]) (fun pk => pk) ⟨8, 1, 2, 0⟩ 1 [3]
      [(2, ⟨[[5], [0]], [0, 0]⟩)] [9] _ _ (by decide) (by decide) (by decide)
      (fun d p hp => by simp at hp; subst hp; exact Nat.mod_lt d (by decide)) rfl).2.1,
   (sendUpdates_spec (fun d => [d % 8]) (fun pk => pk) ⟨8, 1, 2, 0⟩ 1 [3]
      [(2, ⟨[[5], [0]], [0, 0]⟩)] [9] _ _ (by decide) (by decide) (by decide)
      (fun d p hp => by simp at hp; subst hp; exact Nat.mod_lt d (by decide)) rfl).2.2.1 3 (by decide),
   (sendUpdates_spec (fun d => [d % 8]) (fun pk => pk) ⟨8, 1, 2, 0⟩ 1 [3]
      [(2, ⟨[[5], [0]], [0, 0]⟩)] [9] _ _ (by decide) (by decide) (by decide)
      (fun d p hp => by simp at hp; subst hp; exact Nat.mod_lt d (by decide)) rfl).2.2.2 1 (by decide)
      (by decide) 0 (by decide)⟩

end Quasar
